import Mathlib

/-!
# Verification of the `measure` status service

A shallow embedding of the Go service in `measure.go` together with the parts
of its status store, the `jellydator/ttlcache` v2 cache, that the service
exercises (`SetTTL`, `Set`, `Get`, `GetItems`).

Modelling conventions:
* byte payloads (`[]byte` / `json.RawMessage`) are `String`s;
* wall-clock time is a `Nat` passed explicitly to every store operation
  (in Go, `time.Now()`); `expireAt.Before(now)` becomes `expireAt < now`;
* the cache mapping `map[string]*item` is an association list with at most
  one entry per key in every reachable state; the Go map mutation
  `cache.items[key] = it` is `update`, which replaces the first entry with
  that key or appends;
* HTTP responses are inductive result types, one value per handler run;
* the service never sets a cache capacity, an expiration callback, or
  `SkipTTLExtensionOnHit`, so those knobs are embedded at their zero values
  (no eviction by capacity, no callbacks, TTL extension on hit enabled).
-/

set_option autoImplicit false

namespace Measure

/-- One cache entry: `item` of ttlcache v2 (`data`, `ttl`, `expireAt`).
`ttl = 0` is `ItemExpireWithGlobalTTL`; negative per-item TTLs never arise in
this service, so `ttl` is a `Nat`. -/
structure Item where
  data     : String
  ttl      : Nat
  expireAt : Nat
deriving DecidableEq, Repr

/-- Go `item.expired()`: `false` when `ttl <= 0`, otherwise `expireAt.Before(now)`. -/
def Item.expired (it : Item) (now : Nat) : Bool :=
  if it.ttl = 0 then false else decide (it.expireAt < now)

/-- Go `item.touch()`: resets `expireAt` to `now + ttl`, but only when `ttl > 0`. -/
def Item.touch (it : Item) (now : Nat) : Item :=
  if 0 < it.ttl then { it with expireAt := now + it.ttl } else it

/-- Go `newItem(key, data, ttl)`: fresh item, touched once on creation. -/
def newItem (data : String) (ttl : Nat) (now : Nat) : Item :=
  Item.touch { data := data, ttl := ttl, expireAt := 0 } now

/-- First entry with the given key, as the Go map read `cache.items[key]`. -/
def lookup : List (String × Item) → String → Option Item
  | [], _ => none
  | (k, it) :: rest, key => if k = key then some it else lookup rest key

/-- The Go map write `cache.items[key] = it`: replace the entry with that key,
or append when absent. -/
def update : List (String × Item) → String → Item → List (String × Item)
  | [], key, it => [(key, it)]
  | (k, it0) :: rest, key, it =>
      if k = key then (key, it) :: rest else (k, it0) :: update rest key it

/-- Number of entries carrying a key; reachable caches keep it at most 1. -/
def countKey : List (String × Item) → String → Nat
  | [], _ => 0
  | (k, _) :: rest, key => (if k = key then 1 else 0) + countKey rest key

/-- The ttlcache v2 `Cache` as used by the service: the item mapping and the
cache-level TTL installed by `SetTTL` (the `-cacheTTL` flag, default 3h). -/
structure Cache where
  items : List (String × Item)
  ttl   : Nat
deriving DecidableEq, Repr

/-- ttlcache v2 `getItem`: miss on absent or expired key; on a hit with
`item.ttl >= 0 && (item.ttl > 0 || cache.ttl > 0)` the item is touched
(`SkipTTLExtensionOnHit` is never called by this service, so the extension is
active). Returns the item (if any) and the possibly mutated cache. -/
def getItem (c : Cache) (key : String) (now : Nat) : Option Item × Cache :=
  match lookup c.items key with
  | none => (none, c)
  | some it =>
      if it.expired now then (none, c)
      else if 0 < it.ttl ∨ 0 < c.ttl then
        let it' := it.touch now
        (some it', { c with items := update c.items key it' })
      else (some it, c)

/-- ttlcache v2 `Get` (via `getByLoader` with no loader): the item's data on a
hit, `ErrNotFound` (here `none`) on a miss. -/
def Cache.get (c : Cache) (key : String) (now : Nat) : Option String × Cache :=
  let r := getItem c key now
  (r.1.map Item.data, r.2)

/-- The loop body of ttlcache v2 `GetItems`: `getItem` on each key of the
mapping, keeping the data of the keys that exist (are live). -/
def getItemsGo (now : Nat) : Cache → List String → List (String × String) × Cache
  | c, [] => ([], c)
  | c, k :: ks =>
      let r := getItem c k now
      let rest := getItemsGo now r.2 ks
      match r.1 with
      | some it => ((k, it.data) :: rest.1, rest.2)
      | none => rest

/-- ttlcache v2 `GetItems`: a snapshot of all live items (each one touched on
the way, through `getItem`). -/
def Cache.getItems (c : Cache) (now : Nat) : List (String × String) × Cache :=
  getItemsGo now c (c.items.map Prod.fst)

/-- Tail of ttlcache v2 `SetWithTTL` after the item is in the mapping: when
`item.ttl >= 0 && (item.ttl > 0 || cache.ttl > 0)`, promote a zero item TTL to
the cache TTL and touch. -/
def setTail (cttl : Nat) (it : Item) (now : Nat) : Item :=
  if 0 < it.ttl ∨ 0 < cttl then
    let it1 := if 0 < cttl ∧ it.ttl = 0 then { it with ttl := cttl } else it
    it1.touch now
  else it

/-- ttlcache v2 `SetWithTTL`: `getItem` first (which may touch a live entry);
on a hit overwrite `data` and `ttl` in place, otherwise insert a `newItem`;
then the `setTail` promotion/touch. The service never sets a capacity, so the
eviction branch is dead. -/
def Cache.setWithTTL (c : Cache) (key data : String) (ttl now : Nat) : Cache :=
  let r := getItem c key now
  let c1 := r.2
  match r.1 with
  | some it =>
      { c1 with items := update c1.items key (setTail c1.ttl { it with data := data, ttl := ttl } now) }
  | none =>
      { c1 with items := update c1.items key (setTail c1.ttl (newItem data ttl now) now) }

/-- ttlcache v2 `Set`: `SetWithTTL` with `ItemExpireWithGlobalTTL` (= 0). -/
def Cache.set (c : Cache) (key data : String) (now : Nat) : Cache :=
  c.setWithTTL key data 0 now

/-- Go struct `data.WSMessage`: the decoded streaming envelope. -/
structure WSMessage where
  src    : String
  dst    : String
  method : String
deriving DecidableEq, Repr

def MethodNotifyFullStatus : String := "NotifyFullStatus"
def MethodNotifyStatus : String := "NotifyStatus"
def MethodNotifyEvent : String := "NotifyEvent"

/-- The dispatch of one successfully read and decoded message inside
`wsHandler` (`switch msg.Method`): `NotifyFullStatus` stores the verbatim
message bytes under `msg.Src`; every other method falls to `default:` and is
skipped. -/
def wsHandleMessage (c : Cache) (message : String) (msg : WSMessage) (now : Nat) : Cache :=
  if msg.method = MethodNotifyFullStatus then c.set msg.src message now else c

/-- One incoming event on a websocket connection: a failed read, or a frame
whose bytes either decode to an envelope or fail `json.Unmarshal`
(`none`). The `Nat` is the arrival time. -/
inductive WSEvent where
  | readErr : WSEvent
  | frame : Nat → String → Option WSMessage → WSEvent
deriving DecidableEq, Repr

/-- Why the `wsHandler` loop stopped consuming events: a read error, an
unmarshal error (both `break`), or the modelled event list ran out while the
Go loop would still be blocked reading (`pending`). -/
inductive WSExit where
  | readError : WSExit
  | decodeError : WSExit
  | pending : WSExit
deriving DecidableEq, Repr

/-- Whether `e` makes the `wsHandler` loop `break`. -/
def isErrorEvent : WSEvent → Bool
  | .readErr => true
  | .frame _ _ none => true
  | .frame _ _ (some _) => false

/-- The `for {}` loop of `wsHandler` over a connection's event sequence:
read one message, decode, branch on `method`, continue; `break` on a read
error or an unmarshal error (logging only — the handler then returns and the
deferred `c.Close()` closes this connection). -/
def wsLoop (c : Cache) : List WSEvent → Cache × WSExit
  | [] => (c, .pending)
  | .readErr :: _ => (c, .readError)
  | .frame _ _ none :: _ => (c, .decodeError)
  | .frame t raw (some msg) :: rest => wsLoop (wsHandleMessage c raw msg t) rest

/-- Outcome of `reportHandler`: `AbortWithError(400, ...)` or the empty JSON
object `gin.H{}` with status 200. -/
inductive ReportResult where
  | badRequest : ReportResult
  | ok : ReportResult
deriving DecidableEq, Repr

/-- Modelled from the spec: `data.ReportStatus` and its `json.Marshal`
serialization are not under src/ (the data package there holds only ws.go).
The spec says the handler "constructs a small report document from the three
fields, serializes it", so the document is a JSON object carrying the device
identifier and the two measurement strings verbatim. -/
def marshalReport (device temperature humidity : String) : String :=
  "\x7b\"device\":\"" ++ device ++ "\",\"temperature\":\"" ++ temperature ++
    "\",\"humidity\":\"" ++ humidity ++ "\"\x7d"

/-- The `reportHandler`: `params` is the result of `ShouldBind` (`none` = bind
error, otherwise the `id`, `temp`, `hum` query strings, absent fields bound to
`""`). Rejects with 400 before touching the store when the identifier is empty
or both measurements are empty; otherwise marshals the report document, stores
it under the identifier, and acknowledges with `{}`. -/
def reportHandler (c : Cache) (params : Option (String × String × String)) (now : Nat) :
    Cache × ReportResult :=
  match params with
  | none => (c, .badRequest)
  | some (id, temp, hum) =>
      if id = "" ∨ (temp = "" ∧ hum = "") then (c, .badRequest)
      else (c.set id (marshalReport id temp hum) now, .ok)

/-- Outcome of `collectHandler`: bind failure (400), single-device miss
(`AbortWithError(404, err)`), single-device hit (`{"status": payload}`), or
the all-devices snapshot (`{"devices": {...}}`). -/
inductive CollectResult where
  | badRequest : CollectResult
  | notFound : CollectResult
  | okStatus : String → CollectResult
  | okDevices : List (String × String) → CollectResult
deriving DecidableEq, Repr

/-- The `collectHandler`: `params` is the result of `ShouldBind` (`none` = bind
error, otherwise the `device` query string, `""` when absent). A non-empty
device goes through `Cache.Get`: 404 and return on error, else the payload
under `"status"`. The default branch snapshots `Cache.GetItems` under
`"devices"`. -/
def collectHandler (c : Cache) (params : Option String) (now : Nat) :
    Cache × CollectResult :=
  match params with
  | none => (c, .badRequest)
  | some device =>
      if device ≠ "" then
        let r := c.get device now
        match r.1 with
        | none => (r.2, .notFound)
        | some s => (r.2, .okStatus s)
      else
        let r := c.getItems now
        (r.2, .okDevices r.1)



/-- The effect of one event on the store: only a successfully decoded frame
runs the `wsHandler` dispatch; error events write nothing. -/
def wsStep (c : Cache) : WSEvent → Cache
  | .frame t raw (some msg) => wsHandleMessage c raw msg t
  | .frame _ _ none => c
  | .readErr => c

/-- Relates a store state to a later one in which no entry was added or
removed and every entry kept its payload and TTL, while its expiry deadline
either stayed put or was reset (touched) to `now` plus that TTL. -/
def TouchedAt (now : Nat) (l l2 : List (String × Item)) : Prop :=
  ∀ k, (lookup l k = none ∧ lookup l2 k = none) ∨
    ∃ it it2, lookup l k = some it ∧ lookup l2 k = some it2 ∧
      it2.data = it.data ∧ it2.ttl = it.ttl ∧
      (it2.expireAt = it.expireAt ∨ it2.expireAt = now + it.ttl)

/-! ## Basic lemmas about the mapping and the item operations -/

theorem lookup_update_self (l : List (String × Item)) (key : String) (it : Item) :
    lookup (update l key it) key = some it := by
  induction l with
  | nil => simp [update, lookup]
  | cons hd tl ih =>
      obtain ⟨k0, it0⟩ := hd
      by_cases h : k0 = key
      · simp [update, h, lookup]
      · simp [update, h, lookup, ih]

theorem lookup_update_ne (l : List (String × Item)) (key key' : String) (it : Item)
    (h : key' ≠ key) : lookup (update l key it) key' = lookup l key' := by
  induction l with
  | nil => simp [update, lookup, Ne.symm h]
  | cons hd tl ih =>
      obtain ⟨k0, it0⟩ := hd
      by_cases h0 : k0 = key
      · subst h0
        simp [update, lookup, Ne.symm h]
      · simp [update, h0, lookup]
        by_cases h1 : k0 = key'
        · simp [h1]
        · simp [h1, ih]

theorem countKey_update (l : List (String × Item)) (key : String) (it : Item) :
    countKey (update l key it) key = if countKey l key = 0 then 1 else countKey l key := by
  induction l with
  | nil => simp [update, countKey]
  | cons hd tl ih =>
      obtain ⟨k0, it0⟩ := hd
      by_cases h : k0 = key
      · simp [update, h, countKey]
      · simp [update, h, countKey, ih]

theorem countKey_update_ne (l : List (String × Item)) (key key' : String) (it : Item)
    (h : key' ≠ key) : countKey (update l key it) key' = countKey l key' := by
  induction l with
  | nil => simp [update, countKey, Ne.symm h]
  | cons hd tl ih =>
      obtain ⟨k0, it0⟩ := hd
      by_cases h0 : k0 = key
      · subst h0
        simp [update, countKey, Ne.symm h]
      · simp [update, h0, countKey, ih]

theorem countKey_pos_of_lookup (l : List (String × Item)) (key : String) (it : Item)
    (h : lookup l key = some it) : countKey l key ≠ 0 := by
  induction l with
  | nil => simp [lookup] at h
  | cons hd tl ih =>
      obtain ⟨k0, it0⟩ := hd
      by_cases h0 : k0 = key
      · simp [countKey, h0]
      · simp [lookup, h0] at h
        simp [countKey, h0, ih h]

theorem Item.touch_data (it : Item) (now : Nat) : (it.touch now).data = it.data := by
  unfold Item.touch; split <;> rfl

theorem Item.touch_ttl (it : Item) (now : Nat) : (it.touch now).ttl = it.ttl := by
  unfold Item.touch; split <;> rfl

theorem Item.touch_expireAt (it : Item) (now : Nat) :
    (it.touch now).expireAt = it.expireAt ∨ (it.touch now).expireAt = now + it.ttl := by
  unfold Item.touch; split
  · right; rfl
  · left; rfl

theorem Item.touch_not_expired (it : Item) (now : Nat) (h : it.expired now = false) :
    (it.touch now).expired now = false := by
  unfold Item.touch Item.expired at *
  by_cases h0 : 0 < it.ttl
  · have : it.ttl ≠ 0 := Nat.pos_iff_ne_zero.mp h0
    simp [h0, this]
  · simpa [h0] using h

/-! ## Structure lemmas about `getItem` -/

theorem getItem_cases (c : Cache) (key : String) (now : Nat) :
    (getItem c key now).2 = c ∨
      ∃ it, lookup c.items key = some it ∧ it.expired now = false ∧
        (getItem c key now).1 = some (it.touch now) ∧
        (getItem c key now).2 = { c with items := update c.items key (it.touch now) } := by
  unfold getItem
  cases h : lookup c.items key with
  | none => left; rfl
  | some it =>
      cases he : it.expired now with
      | true => left; simp [he]
      | false =>
          by_cases hc : 0 < it.ttl ∨ 0 < c.ttl
          · right; exact ⟨it, rfl, he, by simp [he, hc], by simp [he, hc]⟩
          · left; simp [he, hc]

theorem getItem_ttl (c : Cache) (key : String) (now : Nat) :
    ((getItem c key now).2).ttl = c.ttl := by
  rcases getItem_cases c key now with h | ⟨it, _, _, _, h⟩ <;> rw [h]

theorem getItem_lookup_ne (c : Cache) (key key' : String) (now : Nat) (h : key' ≠ key) :
    lookup ((getItem c key now).2).items key' = lookup c.items key' := by
  rcases getItem_cases c key now with h2 | ⟨it, _, _, _, h2⟩ <;> rw [h2]
  exact lookup_update_ne _ _ _ _ h

theorem getItem_countKey (c : Cache) (key key' : String) (now : Nat) :
    countKey ((getItem c key now).2).items key' = countKey c.items key' := by
  rcases getItem_cases c key now with h2 | ⟨it, hl, _, _, h2⟩ <;> rw [h2]
  by_cases hk : key' = key
  · subst hk
    rw [countKey_update]
    simp [countKey_pos_of_lookup _ _ _ hl]
  · exact countKey_update_ne _ _ _ _ hk

theorem getItem_none_snd (c : Cache) (key : String) (now : Nat)
    (h : (getItem c key now).1 = none) : (getItem c key now).2 = c := by
  rcases getItem_cases c key now with h2 | ⟨it, _, _, h1, _⟩
  · exact h2
  · rw [h1] at h; cases h

theorem getItem_fst_some (c : Cache) (key : String) (now : Nat) (it' : Item)
    (h : (getItem c key now).1 = some it') :
    ∃ it, lookup c.items key = some it ∧ it.expired now = false ∧
      it'.data = it.data ∧ it'.ttl = it.ttl := by
  unfold getItem at h
  cases hl : lookup c.items key with
  | none => rw [hl] at h; cases h
  | some it =>
      rw [hl] at h
      cases he : it.expired now with
      | true => simp [he] at h
      | false =>
          by_cases hc : 0 < it.ttl ∨ 0 < c.ttl
          · simp [he, hc] at h
            exact ⟨it, rfl, he, by rw [← h, Item.touch_data], by rw [← h, Item.touch_ttl]⟩
          · simp [he, hc] at h
            exact ⟨it, rfl, he, by rw [← h], by rw [← h]⟩

theorem getItem_live (c : Cache) (key : String) (now : Nat) (it : Item)
    (hl : lookup c.items key = some it) (he : it.expired now = false) :
    ∃ it', (getItem c key now).1 = some it' ∧ it'.data = it.data ∧ it'.ttl = it.ttl := by
  unfold getItem
  rw [hl]
  by_cases hc : 0 < it.ttl ∨ 0 < c.ttl
  · exact ⟨it.touch now, by simp [he, hc], Item.touch_data it now, Item.touch_ttl it now⟩
  · exact ⟨it, by simp [he, hc], rfl, rfl⟩

/-! ## Structure lemmas about `Cache.set` and `Cache.get` -/

theorem setTail_data (cttl : Nat) (it : Item) (now : Nat) :
    (setTail cttl it now).data = it.data := by
  unfold setTail
  by_cases h : 0 < it.ttl ∨ 0 < cttl
  · by_cases h1 : 0 < cttl ∧ it.ttl = 0 <;> simp [h, h1, Item.touch_data]
  · simp [h]

theorem setTail_zero (cttl : Nat) (it : Item) (now : Nat) (hT : 0 < cttl) (h0 : it.ttl = 0) :
    setTail cttl it now = ⟨it.data, cttl, now + cttl⟩ := by
  unfold setTail Item.touch
  simp [h0, hT]

theorem newItem_zero (p : String) (now : Nat) : newItem p 0 now = ⟨p, 0, 0⟩ := by
  simp [newItem, Item.touch]

theorem set_ttl (c : Cache) (key p : String) (now : Nat) : (c.set key p now).ttl = c.ttl := by
  unfold Cache.set Cache.setWithTTL
  cases h : (getItem c key now).1 <;> simp [h, getItem_ttl]

theorem lookup_set_self (c : Cache) (key p : String) (now : Nat) (hT : 0 < c.ttl) :
    lookup (c.set key p now).items key = some ⟨p, c.ttl, now + c.ttl⟩ := by
  unfold Cache.set Cache.setWithTTL
  cases h : (getItem c key now).1 with
  | some it =>
      simp only [h, getItem_ttl]
      rw [setTail_zero _ _ _ hT rfl, lookup_update_self]
  | none =>
      simp only [h, getItem_ttl, newItem_zero]
      rw [setTail_zero _ _ _ hT rfl, lookup_update_self]

theorem lookup_set_self_data (c : Cache) (key p : String) (now : Nat) :
    ∃ u : Item, lookup (c.set key p now).items key = some u ∧ u.data = p := by
  unfold Cache.set Cache.setWithTTL
  cases h : (getItem c key now).1 with
  | some it =>
      exact ⟨_, by simp only [h]; rw [lookup_update_self], setTail_data _ _ _⟩
  | none =>
      refine ⟨_, by simp only [h]; rw [lookup_update_self], ?_⟩
      rw [setTail_data, newItem_zero]

theorem lookup_set_ne (c : Cache) (key key' p : String) (now : Nat) (h : key' ≠ key) :
    lookup (c.set key p now).items key' = lookup c.items key' := by
  unfold Cache.set Cache.setWithTTL
  cases h2 : (getItem c key now).1 with
  | some it =>
      simp only [h2]
      rw [lookup_update_ne _ _ _ _ h, getItem_lookup_ne _ _ _ _ h]
  | none =>
      simp only [h2]
      rw [lookup_update_ne _ _ _ _ h, getItem_lookup_ne _ _ _ _ h]

theorem countKey_set_self (c : Cache) (key p : String) (now : Nat)
    (h : countKey c.items key ≤ 1) : countKey (c.set key p now).items key = 1 := by
  unfold Cache.set Cache.setWithTTL
  cases h2 : (getItem c key now).1 <;> simp only [h2] <;>
    rw [countKey_update, getItem_countKey] <;> split <;> omega

theorem get_live (c : Cache) (key : String) (now : Nat) (it : Item)
    (hl : lookup c.items key = some it) (he : it.expired now = false) :
    (c.get key now).1 = some it.data := by
  obtain ⟨it', h1, hd, _⟩ := getItem_live c key now it hl he
  unfold Cache.get
  simp [h1, hd]

theorem get_none_of_lookup_none (c : Cache) (key : String) (now : Nat)
    (hl : lookup c.items key = none) : c.get key now = (none, c) := by
  unfold Cache.get getItem
  simp [hl]

theorem get_none_of_expired (c : Cache) (key : String) (now : Nat) (it : Item)
    (hl : lookup c.items key = some it) (he : it.expired now = true) :
    c.get key now = (none, c) := by
  unfold Cache.get getItem
  simp [hl, he]

theorem get_miss_snd (c : Cache) (key : String) (now : Nat)
    (h : (c.get key now).1 = none) : (c.get key now).2 = c := by
  unfold Cache.get at *
  simp only [Option.map_eq_none'] at h
  · exact getItem_none_snd c key now h

theorem get_fst_some (c : Cache) (key : String) (now : Nat) (p : String)
    (h : (c.get key now).1 = some p) :
    ∃ it, lookup c.items key = some it ∧ it.expired now = false ∧ it.data = p := by
  unfold Cache.get at h
  simp only [Option.map_eq_some'] at h
  obtain ⟨it', h1, hd⟩ := h
  obtain ⟨it, hl, he, hdd, _⟩ := getItem_fst_some c key now it' h1
  exact ⟨it, hl, he, by rw [← hdd, hd]⟩

/-! ## Claim C1 -/

/-- C1: for every device identifier `d` and payloads `p1`, `p2`, `put(d,p1)`
followed by `put(d,p2)` leaves exactly one live entry for `d`, whose payload
is `p2` with the expiry reset to the second write time plus the TTL; a later
`get(d)` returns `p2` (or `NotFound` once expired) and never `p1`. -/
theorem set_set_get_replaces (c : Cache) (d p1 p2 : String) (t1 t2 now : Nat)
    (hT : 0 < c.ttl) (hcount : countKey c.items d ≤ 1) :
    lookup ((c.set d p1 t1).set d p2 t2).items d = some ⟨p2, c.ttl, t2 + c.ttl⟩ ∧
    ((((c.set d p1 t1).set d p2 t2).get d now).1 = some p2 ∨
      (((c.set d p1 t1).set d p2 t2).get d now).1 = none) ∧
    (p1 ≠ p2 → (((c.set d p1 t1).set d p2 t2).get d now).1 ≠ some p1) ∧
    countKey ((c.set d p1 t1).set d p2 t2).items d = 1 := by
  have hT1 : 0 < (c.set d p1 t1).ttl := by rw [set_ttl]; exact hT
  have hl : lookup ((c.set d p1 t1).set d p2 t2).items d
      = some ⟨p2, c.ttl, t2 + c.ttl⟩ := by
    rw [lookup_set_self _ _ _ _ hT1, set_ttl]
  have hget : (((c.set d p1 t1).set d p2 t2).get d now).1 = some p2 ∨
      (((c.set d p1 t1).set d p2 t2).get d now).1 = none := by
    cases he : (⟨p2, c.ttl, t2 + c.ttl⟩ : Item).expired now with
    | false => exact Or.inl (get_live _ _ _ _ hl he)
    | true => exact Or.inr (by rw [get_none_of_expired _ _ _ _ hl he])
  refine ⟨hl, hget, ?_, ?_⟩
  · intro hne
    rcases hget with h | h <;> rw [h] <;> simp
    exact fun hh => hne hh.symm
  · have h1 : countKey (c.set d p1 t1).items d = 1 := countKey_set_self _ _ _ _ hcount
    exact countKey_set_self _ _ _ _ (by omega)

/-- Witness for C1 at a concrete input. -/
theorem set_set_get_replaces_witness :
    lookup (((⟨[], 5⟩ : Cache).set "d" "p1" 0).set "d" "p2" 1).items "d"
        = some ⟨"p2", 5, 1 + 5⟩ ∧
      countKey (((⟨[], 5⟩ : Cache).set "d" "p1" 0).set "d" "p2" 1).items "d" = 1 ∧
      ((((⟨[], 5⟩ : Cache).set "d" "p1" 0).set "d" "p2" 1).get "d" 2).1 ≠ some "p1" := by
  obtain ⟨h1, _, h3, h4⟩ :=
    set_set_get_replaces ⟨[], 5⟩ "d" "p1" "p2" 0 1 2 (by decide) (by decide)
  exact ⟨h1, h4, h3 (by decide)⟩

/-! ## Claim C2 -/

/-- C2: with a positive configured TTL, `put(d,p)` at `t0` followed by
`get(d)` at any time strictly after `t0 + TTL` returns `NotFound`; more
generally `get` never returns an entry whose expiry deadline has passed, even
though the entry may still be physically present (not yet swept). -/
theorem ttl_expiry (c : Cache) (d p : String) (t0 t1 : Nat)
    (hT : 0 < c.ttl) (ht : t0 + c.ttl < t1) :
    ((c.set d p t0).get d t1).1 = none ∧
    ∀ (c' : Cache) (d' : String) (now : Nat) (it : Item),
      lookup c'.items d' = some it → 0 < it.ttl → it.expireAt < now →
      (c'.get d' now).1 = none := by
  constructor
  · have hl := lookup_set_self c d p t0 hT
    have he : (⟨p, c.ttl, t0 + c.ttl⟩ : Item).expired t1 = true := by
      unfold Item.expired
      simp [Nat.pos_iff_ne_zero.mp hT, ht]
    rw [get_none_of_expired _ _ _ _ hl he]
  · intro c' d' now it hl httl hexp
    have he : it.expired now = true := by
      unfold Item.expired
      simp [Nat.pos_iff_ne_zero.mp httl, hexp]
    rw [get_none_of_expired _ _ _ _ hl he]

/-- Witness for C2 at a concrete input. -/
theorem ttl_expiry_witness :
    (((⟨[], 5⟩ : Cache).set "d" "p" 0).get "d" 6).1 = none :=
  (ttl_expiry ⟨[], 5⟩ "d" "p" 0 6 (by decide) (by decide)).1

/-! ## Claim C4 -/

/-- C4: for every decodable streaming message, a `NotifyFullStatus` envelope
makes the websocket dispatch perform exactly `put(msg.src, message)` with the
verbatim message bytes (so an immediate `get(msg.src)` returns those bytes);
any other method — in particular `NotifyStatus` and `NotifyEvent` — leaves the
store untouched. -/
theorem ws_dispatch (c : Cache) (message : String) (msg : WSMessage) (now : Nat)
    (hT : 0 < c.ttl) :
    (msg.method = MethodNotifyFullStatus →
      wsHandleMessage c message msg now = c.set msg.src message now ∧
      ((wsHandleMessage c message msg now).get msg.src now).1 = some message) ∧
    (msg.method ≠ MethodNotifyFullStatus → wsHandleMessage c message msg now = c) ∧
    wsHandleMessage c message ⟨msg.src, msg.dst, MethodNotifyStatus⟩ now = c ∧
    wsHandleMessage c message ⟨msg.src, msg.dst, MethodNotifyEvent⟩ now = c := by
  refine ⟨?_, ?_, ?_, ?_⟩
  · intro hm
    have he : wsHandleMessage c message msg now = c.set msg.src message now := by
      unfold wsHandleMessage
      simp [hm]
    refine ⟨he, ?_⟩
    rw [he]
    have hl := lookup_set_self c msg.src message now hT
    have hexp : (⟨message, c.ttl, now + c.ttl⟩ : Item).expired now = false := by
      unfold Item.expired
      simp [Nat.pos_iff_ne_zero.mp hT]
    exact get_live _ _ _ _ hl hexp
  · intro hm
    unfold wsHandleMessage
    simp [hm]
  · have h : MethodNotifyStatus ≠ MethodNotifyFullStatus := by decide
    unfold wsHandleMessage
    simp [h]
  · have h : MethodNotifyEvent ≠ MethodNotifyFullStatus := by decide
    unfold wsHandleMessage
    simp [h]

/-- Witness for C4 at a concrete input. -/
theorem ws_dispatch_witness :
    ((wsHandleMessage ⟨[], 5⟩ "rawbytes" ⟨"dev-1", "ws", "NotifyFullStatus"⟩ 3).get "dev-1" 3).1
        = some "rawbytes" ∧
      wsHandleMessage ⟨[], 5⟩ "rawbytes" ⟨"dev-1", "ws", "NotifyStatus"⟩ 3 = ⟨[], 5⟩ :=
  ⟨((ws_dispatch ⟨[], 5⟩ "rawbytes" ⟨"dev-1", "ws", "NotifyFullStatus"⟩ 3 (by decide)).1 rfl).2,
    (ws_dispatch ⟨[], 5⟩ "rawbytes" ⟨"dev-1", "ws", "NotifyStatus"⟩ 3 (by decide)).2.1 (by decide)⟩

/-! ## Claim C8 -/

/-- C8: a decodable `NotifyFullStatus` message whose `src` is empty (or was
missing, so it unmarshals to `""`) is still written: the store accepts the
empty-string device identifier without validating its shape, and the entry is
retrievable under `""`. -/
theorem ws_empty_src_write (c : Cache) (message dst : String) (now : Nat)
    (hT : 0 < c.ttl) :
    wsHandleMessage c message ⟨"", dst, MethodNotifyFullStatus⟩ now = c.set "" message now ∧
    lookup (wsHandleMessage c message ⟨"", dst, MethodNotifyFullStatus⟩ now).items ""
      = some ⟨message, c.ttl, now + c.ttl⟩ ∧
    ((wsHandleMessage c message ⟨"", dst, MethodNotifyFullStatus⟩ now).get "" now).1
      = some message := by
  have he : wsHandleMessage c message ⟨"", dst, MethodNotifyFullStatus⟩ now
      = c.set "" message now := by
    unfold wsHandleMessage
    simp
  have hl := lookup_set_self c "" message now hT
  have hexp : (⟨message, c.ttl, now + c.ttl⟩ : Item).expired now = false := by
    unfold Item.expired
    simp [Nat.pos_iff_ne_zero.mp hT]
  refine ⟨he, by rw [he]; exact hl, by rw [he]; exact get_live _ _ _ _ hl hexp⟩

/-- Witness for C8 at a concrete input. -/
theorem ws_empty_src_write_witness :
    ((wsHandleMessage ⟨[], 5⟩ "rawbytes" ⟨"", "ws", "NotifyFullStatus"⟩ 3).get "" 3).1
      = some "rawbytes" :=
  (ws_empty_src_write ⟨[], 5⟩ "rawbytes" "ws" 3 (by decide)).2.2

/-! ## Claim C5 -/

/-- C5: the report handler rejects with a client error and no store mutation
exactly when the bind fails, the identifier is empty, or both measurement
strings are empty; on every accepted request it stores the serialized report
document under the identifier and answers with the empty success object. -/
theorem report_validation (c : Cache) (params : Option (String × String × String)) (now : Nat) :
    ((reportHandler c params now).2 = .badRequest ↔
      (params = none ∨ ∃ id temp hum, params = some (id, temp, hum) ∧
        (id = "" ∨ (temp = "" ∧ hum = "")))) ∧
    ((reportHandler c params now).2 = .badRequest → (reportHandler c params now).1 = c) ∧
    (∀ id temp hum, params = some (id, temp, hum) →
      ¬(id = "" ∨ (temp = "" ∧ hum = "")) →
      reportHandler c params now = (c.set id (marshalReport id temp hum) now, .ok)) := by
  refine ⟨?_, ?_, ?_⟩
  · cases params with
    | none => simp [reportHandler]
    | some q =>
        obtain ⟨id, temp, hum⟩ := q
        by_cases h : id = "" ∨ (temp = "" ∧ hum = "")
        · simp [reportHandler, h]
          exact ⟨id, temp, hum, ⟨rfl, rfl, rfl⟩, h⟩
        · simp [reportHandler, h]
          push_neg at h
          exact h
  · cases params with
    | none => intro _; rfl
    | some q =>
        obtain ⟨id, temp, hum⟩ := q
        by_cases h : id = "" ∨ (temp = "" ∧ hum = "") <;> simp [reportHandler, h]
  · intro id temp hum hp h
    subst hp
    simp [reportHandler, h]

/-- Witness for C5 at a concrete input. -/
theorem report_validation_witness :
    reportHandler ⟨[], 5⟩ (some ("dev-2", "21.5", "")) 0
      = ((⟨[], 5⟩ : Cache).set "dev-2" (marshalReport "dev-2" "21.5" "") 0, .ok) :=
  (report_validation ⟨[], 5⟩ (some ("dev-2", "21.5", "")) 0).2.2 "dev-2" "21.5" "" rfl
    (by decide)

/-! ## Claim C9 -/

/-- C9: a single-device query whose identifier has no live entry takes the
miss branch and produces exactly the not-found response with the store
unchanged — the success branch (and its type assertion on the absent value)
is never reached, so the handler cannot panic there. -/
theorem collect_miss_single_response (c : Cache) (d : String) (now : Nat)
    (hd : d ≠ "") (hm : (c.get d now).1 = none) :
    collectHandler c (some d) now = (c, .notFound) := by
  have h2 := get_miss_snd c d now hm
  unfold collectHandler
  simp [hd, hm, h2]

/-- Witness for C9 at a concrete input. -/
theorem collect_miss_single_response_witness :
    collectHandler ⟨[], 5⟩ (some "x") 0 = (⟨[], 5⟩, .notFound) :=
  collect_miss_single_response ⟨[], 5⟩ "x" 0 (by decide) (by decide)

/-! ## Claim C6 -/

/-- C6: with a non-empty device identifier the query handler calls `get` and
wraps a hit under the `status` key or reports not-found on a miss; with no
identifier it calls `getAll` and wraps the full mapping under the `devices`
key. -/
theorem collect_branches (c : Cache) (d : String) (now : Nat) :
    (d ≠ "" → ∀ p, (c.get d now).1 = some p →
      collectHandler c (some d) now = ((c.get d now).2, .okStatus p)) ∧
    (d ≠ "" → (c.get d now).1 = none →
      collectHandler c (some d) now = ((c.get d now).2, .notFound)) ∧
    collectHandler c (some "") now = ((c.getItems now).2, .okDevices (c.getItems now).1) := by
  refine ⟨?_, ?_, ?_⟩
  · intro hd p hp
    unfold collectHandler
    simp [hd, hp]
  · intro hd hm
    unfold collectHandler
    simp [hd, hm]
  · unfold collectHandler
    simp

/-- Witness for C6 at a concrete input. -/
theorem collect_branches_witness :
    collectHandler ⟨[("d", ⟨"p", 5, 5⟩)], 5⟩ (some "d") 0
      = (((⟨[("d", ⟨"p", 5, 5⟩)], 5⟩ : Cache).get "d" 0).2, .okStatus "p") :=
  (collect_branches ⟨[("d", ⟨"p", 5, 5⟩)], 5⟩ "d" 0).1 (by decide) "p" (by decide)

/-! ## Claim C7 -/

/-- C7: the per-connection loop reads, decodes, dispatches and continues; it
stops (beyond exhausting the modelled input) exactly when a read error or an
unmarshal error occurs, and then the store holds precisely the writes of the
error-free prefix — nothing is written for the failing message, and the loop
just returns (the error goes no further than this connection: logging and the
deferred close). -/
theorem ws_loop_error_handling (evs : List WSEvent) (c : Cache) :
    (((wsLoop c evs).2 = .readError ∨ (wsLoop c evs).2 = .decodeError) ↔
      ∃ e ∈ evs, isErrorEvent e = true) ∧
    (wsLoop c evs).1 = List.foldl wsStep c (evs.takeWhile (fun e => !isErrorEvent e)) := by
  induction evs generalizing c with
  | nil => simp [wsLoop]
  | cons e rest ih =>
      cases e with
      | readErr =>
          constructor
          · simp [wsLoop, isErrorEvent]
          · simp [wsLoop, isErrorEvent]
      | frame t raw od =>
          cases od with
          | none =>
              constructor
              · simp [wsLoop, isErrorEvent]
              · simp [wsLoop, isErrorEvent]
          | some msg =>
              have h := ih (wsHandleMessage c raw msg t)
              constructor
              · rw [show wsLoop c (WSEvent.frame t raw (some msg) :: rest)
                    = wsLoop (wsHandleMessage c raw msg t) rest from rfl, h.1]
                simp [isErrorEvent]
              · rw [show wsLoop c (WSEvent.frame t raw (some msg) :: rest)
                    = wsLoop (wsHandleMessage c raw msg t) rest from rfl, h.2]
                simp [isErrorEvent, wsStep]

/-! ## Claim C3 -/

/-- C3 counterexample: a store whose single entry was written at time 0 with
TTL 10 (deadline 10) is mutated by a successful single-device query at time 5
— the hit touches the entry and moves its deadline to 15 = query time + TTL,
so the query path is not mutation-free and the deadline no longer equals the
last put time plus the TTL. -/
theorem collect_mutates_on_hit :
    (collectHandler ⟨[("d", ⟨"p", 10, 10⟩)], 10⟩ (some "d") 5).1
        ≠ (⟨[("d", ⟨"p", 10, 10⟩)], 10⟩ : Cache) ∧
    (collectHandler ⟨[("d", ⟨"p", 10, 10⟩)], 10⟩ (some "d") 5).1
        = (⟨[("d", ⟨"p", 10, 15⟩)], 10⟩ : Cache) ∧
    (collectHandler ⟨[("d", ⟨"p", 10, 10⟩)], 10⟩ (some "d") 5).2
        = .okStatus "p" := by
  refine ⟨by decide, by decide, by decide⟩

theorem touchedAt_refl (now : Nat) (l : List (String × Item)) : TouchedAt now l l := by
  intro k
  cases h : lookup l k with
  | none => exact Or.inl ⟨rfl, rfl⟩
  | some it => exact Or.inr ⟨it, it, rfl, rfl, rfl, rfl, Or.inl rfl⟩

theorem touchedAt_trans (now : Nat) (l1 l2 l3 : List (String × Item))
    (h12 : TouchedAt now l1 l2) (h23 : TouchedAt now l2 l3) : TouchedAt now l1 l3 := by
  intro k
  rcases h12 k with ⟨h1, h2⟩ | ⟨it, it2, h1, h2, hd, ht, he⟩
  · rcases h23 k with ⟨h2b, h3⟩ | ⟨u, u2, h2b, _, _, _, _⟩
    · exact Or.inl ⟨h1, h3⟩
    · rw [h2] at h2b; cases h2b
  · rcases h23 k with ⟨h2b, _⟩ | ⟨u, u2, h2b, h3, hd2, ht2, he2⟩
    · rw [h2] at h2b; cases h2b
    · rw [h2] at h2b
      injection h2b with hu
      subst hu
      refine Or.inr ⟨it, u2, h1, h3, by rw [hd2, hd], by rw [ht2, ht], ?_⟩
      rcases he2 with he2 | he2
      · rw [he2]; exact he
      · right; rw [he2, ht]

theorem getItem_touchedAt (c : Cache) (key : String) (now : Nat) :
    TouchedAt now c.items ((getItem c key now).2).items := by
  rcases getItem_cases c key now with h | ⟨it, hl, hexp, _, h⟩
  · rw [h]; exact touchedAt_refl now c.items
  · rw [h]
    intro k
    by_cases hk : k = key
    · subst hk
      refine Or.inr ⟨it, it.touch now, hl, ?_, Item.touch_data it now,
        Item.touch_ttl it now, Item.touch_expireAt it now⟩
      exact lookup_update_self _ _ _
    · rw [show ({ c with items := update c.items key (it.touch now) } : Cache).items
          = update c.items key (it.touch now) from rfl, lookup_update_ne _ _ _ _ hk]
      cases h2 : lookup c.items k with
      | none => exact Or.inl ⟨rfl, rfl⟩
      | some u => exact Or.inr ⟨u, u, rfl, rfl, rfl, rfl, Or.inl rfl⟩

theorem getItemsGo_cons_some (now : Nat) (c : Cache) (k : String) (ks : List String)
    (it : Item) (h : (getItem c k now).1 = some it) :
    getItemsGo now c (k :: ks)
      = ((k, it.data) :: (getItemsGo now (getItem c k now).2 ks).1,
          (getItemsGo now (getItem c k now).2 ks).2) := by
  conv_lhs => rw [getItemsGo]
  rw [h]

theorem getItemsGo_cons_none (now : Nat) (c : Cache) (k : String) (ks : List String)
    (h : (getItem c k now).1 = none) :
    getItemsGo now c (k :: ks) = getItemsGo now (getItem c k now).2 ks := by
  conv_lhs => rw [getItemsGo]
  rw [h]

theorem getItemsGo_snd_cons (now : Nat) (c : Cache) (k : String) (ks : List String) :
    (getItemsGo now c (k :: ks)).2 = (getItemsGo now (getItem c k now).2 ks).2 := by
  cases h : (getItem c k now).1 with
  | none => rw [getItemsGo_cons_none now c k ks h]
  | some it => rw [getItemsGo_cons_some now c k ks it h]

theorem getItemsGo_touchedAt (now : Nat) (ks : List String) :
    ∀ c : Cache, TouchedAt now c.items ((getItemsGo now c ks).2).items := by
  induction ks with
  | nil => intro c; exact touchedAt_refl now c.items
  | cons k ks ih =>
      intro c
      rw [getItemsGo_snd_cons now c k ks]
      exact touchedAt_trans now _ _ _ (getItem_touchedAt c k now) (ih (getItem c k now).2)

/-- C3 amended: the query path adds and removes no entry and changes no
payload and no TTL, but it is not mutation-free — each live entry it reads
(the single-device hit, and every live entry enumerated by the all-devices
query) may have its expiry deadline reset to the query time plus its TTL,
rather than the deadline always staying at last put time + TTL. -/
theorem collect_touches_only (c : Cache) (params : Option String) (now : Nat) :
    TouchedAt now c.items ((collectHandler c params now).1).items := by
  cases params with
  | none => exact touchedAt_refl now c.items
  | some d =>
      by_cases hd : d = ""
      · subst hd
        rw [(collect_branches c "" now).2.2]
        exact getItemsGo_touchedAt now _ c
      · cases hp : (c.get d now).1 with
        | none =>
            rw [(collect_branches c d now).2.1 hd hp]
            exact getItem_touchedAt c d now
        | some p =>
            rw [(collect_branches c d now).1 hd p hp]
            exact getItem_touchedAt c d now

/-! ## Claim C10 -/

theorem mem_keys_of_lookup (l : List (String × Item)) (k : String) (it : Item)
    (h : lookup l k = some it) : k ∈ l.map Prod.fst := by
  induction l with
  | nil => simp [lookup] at h
  | cons hd tl ih =>
      obtain ⟨k0, it0⟩ := hd
      by_cases h0 : k0 = k
      · simp [h0]
      · simp [lookup, h0] at h
        simp [ih h]

theorem getItemsGo_mem (now : Nat) (ks : List String) :
    ∀ (c : Cache) (k : String) (it : Item), lookup c.items k = some it →
      it.expired now = false → k ∈ ks → (k, it.data) ∈ (getItemsGo now c ks).1 := by
  induction ks with
  | nil => intro c k it _ _ h; cases h
  | cons k0 ks ih =>
      intro c k it hl he hmem
      by_cases hk : k = k0
      · subst hk
        obtain ⟨it2, hsome, hdata, _⟩ := getItem_live c k now it hl he
        rw [getItemsGo_cons_some now c k ks it2 hsome]
        simp [hdata]
      · have hmem2 : k ∈ ks := by
          rcases List.mem_cons.mp hmem with h | h
          · exact absurd h hk
          · exact h
        have hl2 : lookup ((getItem c k0 now).2).items k = some it := by
          rw [getItem_lookup_ne c k0 k now hk]
          exact hl
        have hrec := ih (getItem c k0 now).2 k it hl2 he hmem2
        cases hsome : (getItem c k0 now).1 with
        | none =>
            rw [getItemsGo_cons_none now c k0 ks hsome]
            exact hrec
        | some it2 =>
            rw [getItemsGo_cons_some now c k0 ks it2 hsome]
            exact List.mem_cons_of_mem _ hrec

theorem getItemsGo_sound (now : Nat) (ks : List String) :
    ∀ (c : Cache) (k v : String), (k, v) ∈ (getItemsGo now c ks).1 →
      ∃ it, lookup c.items k = some it ∧ it.expired now = false ∧ it.data = v := by
  induction ks with
  | nil => intro c k v h; simp [getItemsGo] at h
  | cons k0 ks ih =>
      intro c k v hmem
      cases hsome : (getItem c k0 now).1 with
      | none =>
          rw [getItemsGo_cons_none now c k0 ks hsome] at hmem
          have := ih (getItem c k0 now).2 k v hmem
          rwa [getItem_none_snd c k0 now hsome] at this
      | some it2 =>
          rw [getItemsGo_cons_some now c k0 ks it2 hsome] at hmem
          simp only [List.mem_cons] at hmem
          rcases hmem with hmem | hmem
          · injection hmem with h1 h2
            subst h1
            obtain ⟨it, hl, he, hdd, _⟩ := getItem_fst_some c k now it2 hsome
            exact ⟨it, hl, he, by rw [← hdd, h2]⟩
          · obtain ⟨it, hl, he, hdv⟩ := ih (getItem c k0 now).2 k v hmem
            rcases getItem_cases c k0 now with hcase | ⟨it0, hl0, he0, _, hcase⟩
            · rw [hcase] at hl
              exact ⟨it, hl, he, hdv⟩
            · by_cases hk : k = k0
              · subst hk
                rw [hcase] at hl
                rw [show ({ c with items := update c.items k (it0.touch now) } : Cache).items
                    = update c.items k (it0.touch now) from rfl, lookup_update_self] at hl
                injection hl with hl
                refine ⟨it0, hl0, he0, ?_⟩
                rw [← hdv, ← hl, Item.touch_data]
              · rw [hcase] at hl
                rw [show ({ c with items := update c.items k0 (it0.touch now) } : Cache).items
                    = update c.items k0 (it0.touch now) from rfl,
                  lookup_update_ne _ _ _ _ hk] at hl
                exact ⟨it, hl, he, hdv⟩

/-- C10: an entry stored under the empty-string identifier cannot be reached
through the single-device path — every `status`-key response comes from a
non-empty identifier's own entry — while a query with `device = ""` is routed
to the all-devices branch whose mapping does contain the empty-key entry when
it is live. -/
theorem collect_empty_key_unreachable (c : Cache) (now : Nat) :
    (∀ it, lookup c.items "" = some it → it.expired now = false →
      ∃ c2, collectHandler c (some "") now = (c2, .okDevices (c.getItems now).1) ∧
        ("", it.data) ∈ (c.getItems now).1) ∧
    (∀ d p c2, collectHandler c (some d) now = (c2, .okStatus p) →
      d ≠ "" ∧ ∃ it, lookup c.items d = some it ∧ it.data = p) := by
  constructor
  · intro it hl he
    refine ⟨(c.getItems now).2, (collect_branches c "" now).2.2, ?_⟩
    exact getItemsGo_mem now _ c "" it hl he (mem_keys_of_lookup c.items "" it hl)
  · intro d p c2 hres
    by_cases hd : d = ""
    · subst hd
      rw [(collect_branches c "" now).2.2] at hres
      have h2 := congrArg Prod.snd hres
      simp at h2
    · refine ⟨hd, ?_⟩
      cases hp : (c.get d now).1 with
      | none =>
          rw [(collect_branches c d now).2.1 hd hp] at hres
          have h2 := congrArg Prod.snd hres
          simp at h2
      | some s =>
          rw [(collect_branches c d now).1 hd s hp] at hres
          have hs : s = p := by
            have := congrArg Prod.snd hres
            simpa using this
          obtain ⟨it, hl, _, hdata⟩ := get_fst_some c d now s hp
          exact ⟨it, hl, by rw [hdata, hs]⟩

/-- Witness for C10 at a concrete input. -/
theorem collect_empty_key_unreachable_witness :
    ∃ c2, collectHandler ⟨[("", ⟨"raw", 5, 5⟩)], 5⟩ (some "") 0
        = (c2, .okDevices ((⟨[("", ⟨"raw", 5, 5⟩)], 5⟩ : Cache).getItems 0).1) ∧
      ("", "raw") ∈ ((⟨[("", ⟨"raw", 5, 5⟩)], 5⟩ : Cache).getItems 0).1 :=
  (collect_empty_key_unreachable ⟨[("", ⟨"raw", 5, 5⟩)], 5⟩ 0).1 ⟨"raw", 5, 5⟩ rfl rfl

end Measure
